import Mathlib

/-!
Verification of the SoundFilteringProject repository against its
natural-language specification.  The Python sources are shallowly embedded:
pure numeric code becomes functions over `ℚ`/`ℝ`, NumPy arrays become lists,
fallible code returns `Except`, and `float('inf')` results are modelled with
`Option` (`none` = infinity).  External library routines (librosa, scipy's
`butter`/`sosfilt_zi`) are modelled as opaque function parameters where the
claims only concern the repository's own logic around them.
-/

namespace SoundFiltering

/-! ## Batch orchestrator (src/main.py, `batch_process`)

`batch_process` iterates over `os.listdir(original_dir)` (the CLEAN
directory), keeps entries ending in `.wav`, and runs `process_audio_pair`
on each inside `try/except Exception: print(...); continue`.  The directory
listing is modelled as a list of names, the whole per-pair pipeline
(decode both files, detect bands, design, apply, evaluate, encode) as a
parameter `proc : String → Except String Unit` returning the error message
of whatever exception it raises, and the per-file console record as a
`BatchResult` event. -/

inductive BatchResult where
  | success (file : String)
  | failure (file : String) (msg : String)
  deriving DecidableEq

/-- Python `str.endswith`, over the character lists of the two strings
(executable model of `String.endsWith`). -/
def strEndsWith (s t : String) : Bool :=
  s.data.drop (s.data.length - t.data.length) == t.data

def batch_process (originalListing : List String)
    (proc : String → Except String Unit) : List BatchResult :=
  originalListing.filterMap (fun file =>
    if strEndsWith file ".wav" then
      some (match proc file with
            | .ok _ => .success file
            | .error e => .failure file e)
    else none)

/-- Modelled from the spec: the DISCOVER_PAIRS step it describes lists the
noisy-directory entries and includes one in the pairing set only if a
same-named entry exists in the clean directory.  (No such step exists in
`src/main.py`; this definition follows the spec words for comparison.) -/
def specDiscoverPairs (noisyListing cleanListing : List String) : List String :=
  noisyListing.filter (fun f => cleanListing.contains f)

lemma batch_process_append (xs ys : List String) (proc : String → Except String Unit) :
    batch_process (xs ++ ys) proc = batch_process xs proc ++ batch_process ys proc := by
  simp [batch_process, List.filterMap_append]

/-- C7 counterexample: with clean directory listing `[a.wav, b.wav]` and noisy
directory `[a.wav, c.wav]` (decode succeeds exactly for files present in the
noisy directory), the code attempts BOTH clean entries — producing a success
for `a.wav` and a caught failure for `b.wav`, two result rows — whereas the
claim demands exactly the one pairing `a.wav` obtained by listing the noisy
directory and filtering by clean-directory membership. -/
theorem c7_batch_discovery_counterexample :
    batch_process ["a.wav", "b.wav"]
      (fun f => if (["a.wav", "c.wav"] : List String).contains f then .ok ()
                else .error "Error loading audio file") =
      [.success "a.wav", .failure "b.wav" "Error loading audio file"] ∧
    specDiscoverPairs ["a.wav", "c.wav"] ["a.wav", "b.wav"] = ["a.wav"] ∧
    ([BatchResult.success "a.wav",
      BatchResult.failure "b.wav" "Error loading audio file"].length ≠ 1) := by
  refine ⟨by decide, by decide, by decide⟩

/-- C7 amended: the batch orchestrator builds its work list from the
clean(original)-directory listing, keeping exactly the entries ending in
`.wav`, with no check that a same-named noisy entry exists; each kept entry
yields one result row (success, or failure if its pipeline raises). -/
theorem c7_batch_discovery_amended (originalListing : List String)
    (proc : String → Except String Unit) :
    batch_process originalListing proc =
      (originalListing.filter (fun f => strEndsWith f ".wav")).map
        (fun file => match proc file with
                     | .ok _ => .success file
                     | .error e => .failure file e) := by
  induction originalListing with
  | nil => rfl
  | cons f rest ih =>
      by_cases h : strEndsWith f ".wav" <;>
        simp [batch_process, List.filterMap_cons, h, List.filter_cons] at ih ⊢ <;>
        exact ih

/-- C8: an exception raised while processing one pairing is caught at that
pairing's boundary, recorded as a failure row carrying the error's message,
and every pairing after it is still processed: the batch result decomposes
around the failing file. -/
theorem c8_batch_failure_isolation (xs ys : List String) (f msg : String)
    (proc : String → Except String Unit)
    (hwav : strEndsWith f ".wav" = true) (herr : proc f = .error msg) :
    batch_process (xs ++ f :: ys) proc =
      batch_process xs proc ++ .failure f msg :: batch_process ys proc := by
  rw [batch_process_append]
  simp [batch_process, List.filterMap_cons, hwav, herr]

theorem c8_batch_failure_isolation_witness :
    batch_process ["x.wav", "bad.wav", "y.wav"]
      (fun g => if g = "bad.wav" then .error "boom" else .ok ()) =
      batch_process ["x.wav"]
        (fun g => if g = "bad.wav" then .error "boom" else .ok ()) ++
      .failure "bad.wav" "boom" ::
      batch_process ["y.wav"]
        (fun g => if g = "bad.wav" then .error "boom" else .ok ()) :=
  c8_batch_failure_isolation ["x.wav"] ["y.wav"] "bad.wav" "boom"
    (fun g => if g = "bad.wav" then .error "boom" else .ok ())
    (by decide) (by simp)

/-! ## Quality metrics (src/utils/metrics.py, `calculate_snr`)

`calculate_snr` computes `signal_energy = np.sum(clean**2)` and
`noise_energy = np.sum((noisy - clean)**2)`, returns `float('inf')` when
`noise_energy < 1e-10`, and otherwise `10*log10(signal_energy/noise_energy)`.
`float('inf')` is modelled as `none`. -/

noncomputable def calculate_snr (clean_signal noisy_signal : List ℝ) : Option ℝ :=
  if ((noisy_signal.zipWith (fun a b => a - b) clean_signal).map (fun a => a ^ 2)).sum
      < 1e-10 then
    none
  else
    some (10 * Real.logb 10 ((clean_signal.map (fun a => a ^ 2)).sum /
      ((noisy_signal.zipWith (fun a b => a - b) clean_signal).map (fun a => a ^ 2)).sum))

lemma sum_sq_zipWith_self (l : List ℝ) :
    ((l.zipWith (fun a b => a - b) l).map (fun a => a ^ 2)).sum = 0 := by
  induction l with
  | nil => simp
  | cons a t ih => simp [ih]

/-- C6 counterexample: no fixed `ε` makes "snr is +∞ exactly when
`mean((clean-candidate)^2) < ε`" true, because the code thresholds the SUM of
squared residuals against `1e-10`, so the induced bound on the mean varies
with the signal length: the pair `([1,0], [1,1e-5])` has residual mean
`5e-11` yet finite snr, while `([1], [1+9e-6])` has the larger residual mean
`8.1e-11` yet infinite snr. -/
theorem c6_snr_counterexample :
    ¬ ∃ ε : ℝ, 0 < ε ∧ ∀ (clean cand : List ℝ), clean.length = cand.length →
      clean ≠ [] →
      (calculate_snr clean cand = none ↔
        ((cand.zipWith (fun a b => a - b) clean).map (fun a => a ^ 2)).sum /
          clean.length < ε) := by
  rintro ⟨ε, -, h⟩
  have hA := h [1, 0] [1, 1e-5] (by simp) (by simp)
  have hB := h [1] [1 + 9e-6] (by simp) (by simp)
  rw [calculate_snr] at hA hB
  rw [if_neg (by norm_num)] at hA
  rw [if_pos (by norm_num)] at hB
  have h1 : ¬ ((((1:ℝ), (1:ℝ)) :: [((1e-5 : ℝ), (0:ℝ))]).map
      (fun p => (p.1 - p.2) ^ 2)).sum / 2 < ε := by
    intro hc
    exact absurd (hA.mpr (by simp [List.zipWith] at hc ⊢; linarith)) (by simp)
  have h2 : ((9e-6 : ℝ)) ^ 2 / 1 < ε := by
    have := hB.mp rfl
    simpa [List.zipWith] using this
  rw [not_lt] at h1
  have h1' : ε ≤ 5e-11 := by
    calc ε ≤ (((1:ℝ) - 1) ^ 2 + (((1e-5 : ℝ) - 0) ^ 2 + 0)) / 2 := by simpa using h1
    _ = 5e-11 := by norm_num
  have h2' : (8.1e-11 : ℝ) < ε := by
    calc (8.1e-11 : ℝ) = (9e-6 : ℝ) ^ 2 / 1 := by norm_num
    _ < ε := h2
  linarith

/-- C6 amended: `calculate_snr` returns +∞ (modelled `none`) exactly when the
SUM of squared residuals is below `1e-10` (so the induced threshold on the
mean residual is `1e-10 / N`, not a fixed epsilon); any finite value it
returns equals `10*log10(mean(clean^2)/mean((clean-candidate)^2))`; and
`snr(clean, clean)` is +∞. -/
theorem c6_snr_amended (clean cand : List ℝ) (_hlen : clean.length = cand.length)
    (hne : clean ≠ []) :
    (calculate_snr clean cand = none ↔
      ((cand.zipWith (fun a b => a - b) clean).map (fun a => a ^ 2)).sum < 1e-10) ∧
    (∀ v, calculate_snr clean cand = some v →
      v = 10 * Real.logb 10 (((clean.map (fun a => a ^ 2)).sum / clean.length) /
        (((cand.zipWith (fun a b => a - b) clean).map (fun a => a ^ 2)).sum /
          clean.length))) ∧
    calculate_snr clean clean = none := by
  have hN : (clean.length : ℝ) ≠ 0 :=
    Nat.cast_ne_zero.mpr (List.length_pos.mpr hne).ne'
  refine ⟨?_, ?_, ?_⟩
  · rw [calculate_snr]
    by_cases h : ((cand.zipWith (fun a b => a - b) clean).map (fun a => a ^ 2)).sum
        < 1e-10
    · simp [h]
    · simp [h]
  · intro v hv
    rw [calculate_snr] at hv
    by_cases h : ((cand.zipWith (fun a b => a - b) clean).map (fun a => a ^ 2)).sum
        < 1e-10
    · rw [if_pos h] at hv; cases hv
    · rw [if_neg h, Option.some_inj] at hv
      rw [← hv, div_div_div_cancel_right₀ hN]
  · rw [calculate_snr, if_pos]
    rw [sum_sq_zipWith_self]
    norm_num

theorem c6_snr_amended_witness :
    (calculate_snr [(1:ℝ)] [(2:ℝ)] = none ↔
      ((([(2:ℝ)].zipWith (fun a b => a - b) [(1:ℝ)]).map (fun a => a ^ 2)).sum
        < 1e-10)) ∧
    (∀ v, calculate_snr [(1:ℝ)] [(2:ℝ)] = some v →
      v = 10 * Real.logb 10 ((([(1:ℝ)].map (fun a => a ^ 2)).sum /
          ([(1:ℝ)] : List ℝ).length) /
        ((([(2:ℝ)].zipWith (fun a b => a - b) [(1:ℝ)]).map (fun a => a ^ 2)).sum /
          ([(1:ℝ)] : List ℝ).length))) ∧
    calculate_snr [(1:ℝ)] [(1:ℝ)] = none :=
  c6_snr_amended [1] [2] (by simp) (by simp)

/-! ## Audio loading (src/utils/audio_io.py, `load_audio`)

After decoding (external, librosa), `load_audio` peak-normalizes:
`if np.max(np.abs(audio)) > 0: audio = audio / np.max(np.abs(audio))`.
Only this repository-owned step is embedded; the decoded samples are the
input.  `np.max` over a nonempty array of absolute values coincides with
`foldr max 0` since all entries are nonnegative. -/

noncomputable def maxAbs (l : List ℝ) : ℝ := (l.map (fun a => |a|)).foldr max 0

noncomputable def load_audio_normalize (audio : List ℝ) : List ℝ :=
  if 0 < maxAbs audio then audio.map (fun a => a / maxAbs audio) else audio

lemma le_maxAbs (l : List ℝ) (a : ℝ) (ha : a ∈ l) : |a| ≤ maxAbs l := by
  induction l with
  | nil => cases ha
  | cons b t ih =>
      rcases List.mem_cons.mp ha with rfl | hmem
      · exact le_max_left _ _
      · exact le_trans (ih hmem) (le_max_right _ _)

lemma maxAbs_map_div (l : List ℝ) (M : ℝ) (hM : 0 < M) :
    maxAbs (l.map (fun a => a / M)) = maxAbs l / M := by
  induction l with
  | nil => simp [maxAbs]
  | cons b t ih =>
      have hstep : maxAbs ((b :: t).map (fun a => a / M)) =
          max (|b / M|) (maxAbs (t.map (fun a => a / M))) := rfl
      have hstep' : maxAbs (b :: t) = max (|b|) (maxAbs t) := rfl
      rw [hstep, hstep', ih, abs_div, abs_of_pos hM, max_div_div_right hM.le]

/-- C9: the decode step peak-normalizes — whenever the decoded samples are not
all zero, the loaded signal's peak absolute amplitude is exactly 1. -/
theorem c9_load_audio_peak_normalized (audio : List ℝ) (h : ∃ a ∈ audio, a ≠ 0) :
    maxAbs (load_audio_normalize audio) = 1 := by
  obtain ⟨a, ha, hna⟩ := h
  have hM : 0 < maxAbs audio := lt_of_lt_of_le (abs_pos.mpr hna) (le_maxAbs audio a ha)
  rw [load_audio_normalize, if_pos hM, maxAbs_map_div audio _ hM, div_self hM.ne']

theorem c9_load_audio_peak_normalized_witness :
    maxAbs (load_audio_normalize [(2:ℝ)]) = 1 :=
  c9_load_audio_peak_normalized [2] ⟨2, by simp, by norm_num⟩

/-! ## Spectral analyzer (src/analysis/frequency_analysis.py and
src/analysis/frequency_survey.py, both named `compute_fft`)

`np.fft.fft` coefficient `k` of a real signal is
`X_k = Σ_j x_j · exp(-2πi·j·k/N)`.  `np.fft.fftfreq(n, 1/sr)` lists
`k·sr/n` for `k ≤ (n-1)//2` and `(k-n)·sr/n` for the remaining indices.

The `frequency_analysis` variant returns `np.abs(fft)[:n//2] * 2/n` and
`fftfreq[:n//2]`; the `frequency_survey` variant returns the entries of
`fftfreq` that are `≥ 0` paired with the unscaled `np.abs(fft)`. -/

noncomputable def dft (x : List ℝ) (k : ℕ) : ℂ :=
  ∑ j ∈ Finset.range x.length,
    (x.getD j 0 : ℂ) *
      Complex.exp (-(2 * (Real.pi : ℂ) * Complex.I * j * k) / x.length)

def fftfreq (n : ℕ) (sr : ℚ) : List ℚ :=
  (List.range n).map (fun k =>
    if 2 * k < n then (k : ℚ) * sr / n else ((k : ℚ) - n) * sr / n)

def compute_fft_freqs (n : ℕ) (sr : ℚ) : List ℚ := (fftfreq n sr).take (n / 2)

noncomputable def compute_fft_amps (x : List ℝ) : List ℝ :=
  (((List.range x.length).map (fun k => Complex.abs (dft x k))).take
    (x.length / 2)).map (fun a => a * 2 / x.length)

noncomputable def survey_compute_fft (x : List ℝ) (sr : ℚ) : List ℚ × List ℝ :=
  let pairs := ((fftfreq x.length sr).zip
      ((List.range x.length).map (fun k => Complex.abs (dft x k)))).filter
      (fun p => decide (0 ≤ p.1))
  (pairs.map Prod.fst, pairs.map Prod.snd)

lemma compute_fft_freqs_eq (n : ℕ) (sr : ℚ) :
    compute_fft_freqs n sr = (List.range (n / 2)).map (fun k : ℕ => (k : ℚ) * sr / n) := by
  unfold compute_fft_freqs fftfreq
  rw [← List.map_take, List.take_range, min_eq_left (Nat.div_le_self n 2)]
  refine List.map_congr_left ?_
  intro k hk
  have hk2 : 2 * k < n := by
    have := List.mem_range.mp hk
    omega
  simp [hk2]

lemma compute_fft_amps_eq (x : List ℝ) :
    compute_fft_amps x = (List.range (x.length / 2)).map
      (fun k => Complex.abs (dft x k) * 2 / x.length) := by
  unfold compute_fft_amps
  rw [← List.map_take, List.take_range, min_eq_left (Nat.div_le_self _ 2), List.map_map]
  rfl

lemma pairwise_lt_map_mul_div (m n : ℕ) (sr : ℚ) (hsr : 0 < sr) (hn : 0 < n) :
    ((List.range m).map (fun k : ℕ => (k : ℚ) * sr / n)).Pairwise (· < ·) := by
  refine (List.pairwise_lt_range m).map _ (fun a b hab => ?_)
  have hab' : (a : ℚ) < b := by exact_mod_cast hab
  have hn' : (0 : ℚ) < n := by exact_mod_cast hn
  exact div_lt_div_of_pos_right (by nlinarith) hn'

lemma range_filter_decide_lt (n c : ℕ) :
    (List.range n).filter (fun k => decide (k < c)) = List.range (min c n) := by
  induction n with
  | zero => simp
  | succ n ih =>
      rw [List.range_succ, List.filter_append, ih]
      by_cases h : n < c
      · have h1 : min c n = n := by omega
        have h2 : min c (n + 1) = n + 1 := by omega
        simp [h1, h2, h, List.range_succ]
      · have h1 : min c n = c := by omega
        have h2 : min c (n + 1) = c := by omega
        simp [h1, h2, h]

lemma survey_compute_fft_eq (x : List ℝ) (sr : ℚ) (hsr : 0 < sr) :
    survey_compute_fft x sr =
      ((List.range ((x.length + 1) / 2)).map (fun k : ℕ => (k : ℚ) * sr / x.length),
       (List.range ((x.length + 1) / 2)).map (fun k => Complex.abs (dft x k))) := by
  unfold survey_compute_fft fftfreq
  dsimp only
  set n := x.length with hn
  have hzip : ((List.range n).map (fun k =>
        if 2 * k < n then (k : ℚ) * sr / n else ((k : ℚ) - n) * sr / n)).zip
        ((List.range n).map (fun k => Complex.abs (dft x k))) =
      (List.range n).map (fun k =>
        ((if 2 * k < n then (k : ℚ) * sr / n else ((k : ℚ) - n) * sr / n),
         Complex.abs (dft x k))) := List.zip_map' _ _ _
  rw [hzip, List.filter_map]
  have hfil : (List.range n).filter ((fun p : ℚ × ℝ => decide (0 ≤ p.1)) ∘ (fun k =>
        ((if 2 * k < n then (k : ℚ) * sr / n else ((k : ℚ) - n) * sr / n),
         Complex.abs (dft x k)))) =
      List.range ((n + 1) / 2) := by
    rw [List.filter_congr (q := fun k => decide (k < (n + 1) / 2)) ?_,
      range_filter_decide_lt, min_eq_left (by omega)]
    intro k hk
    have hkn : k < n := List.mem_range.mp hk
    by_cases h2 : 2 * k < n
    · have hk' : k < (n + 1) / 2 := by omega
      have hpos : (0 : ℚ) ≤ (k : ℚ) * sr / n := by positivity
      simp [Function.comp, h2, hpos, hk']
    · have hk' : ¬ k < (n + 1) / 2 := by omega
      have hn0 : (0 : ℚ) < n := by exact_mod_cast (by omega : 0 < n)
      have hneg : ¬ (0 : ℚ) ≤ ((k : ℚ) - n) * sr / n := by
        rw [not_le]
        apply div_neg_of_neg_of_pos _ hn0
        have hkq : (k : ℚ) < n := by exact_mod_cast hkn
        nlinarith
      simp [Function.comp, h2, hneg, hk']
  rw [hfil, List.map_map, List.map_map]
  refine congrArg₂ Prod.mk ?_ ?_
  · refine List.map_congr_left ?_
    intro k hk
    have hk2 : 2 * k < n := by
      have := List.mem_range.mp hk
      omega
    simp [Function.comp, hk2]
  · refine List.map_congr_left ?_
    intro k hk
    simp [Function.comp]

/-- C1 counterexample: on a 3-sample signal the `frequency_analysis` variant
of `compute_fft` returns only `3 // 2 = 1` frequency bin, not
`ceil(3/2) = 2` as the claim states. -/
theorem c1_spectrum_counterexample :
    (compute_fft_freqs ([(1:ℝ), 0, 0]).length 8).length = 1 ∧ (1 : ℕ) ≠ (3 + 1) / 2 := by
  constructor
  · rw [show ([(1:ℝ), 0, 0]).length = 3 from rfl, compute_fft_freqs_eq]
    simp
  · decide

/-- C1 amended: for every non-empty signal and positive sample rate, the
`frequency_analysis` variant of `compute_fft` returns `N // 2` (floor, not
ceil) strictly-ascending frequency bins paired with the `2/N`-scaled
magnitudes `|X_k|·2/N` of the Fourier coefficients, while the
`frequency_survey` variant returns `ceil(N/2)` strictly-ascending bins paired
with the unscaled magnitudes `|X_k|`. -/
theorem c1_spectrum_amended (x : List ℝ) (sr : ℚ) (hx : x ≠ []) (hsr : 0 < sr) :
    (compute_fft_freqs x.length sr).length = x.length / 2 ∧
    (compute_fft_freqs x.length sr).Pairwise (· < ·) ∧
    compute_fft_amps x = (List.range (x.length / 2)).map
      (fun k => Complex.abs (dft x k) * 2 / x.length) ∧
    (survey_compute_fft x sr).1.length = (x.length + 1) / 2 ∧
    (survey_compute_fft x sr).1.Pairwise (· < ·) ∧
    (survey_compute_fft x sr).2 = (List.range ((x.length + 1) / 2)).map
      (fun k => Complex.abs (dft x k)) := by
  have hn : 0 < x.length := List.length_pos.mpr hx
  refine ⟨?_, ?_, compute_fft_amps_eq x, ?_, ?_, ?_⟩
  · rw [compute_fft_freqs_eq]; simp
  · rw [compute_fft_freqs_eq]
    exact pairwise_lt_map_mul_div _ _ _ hsr hn
  · rw [survey_compute_fft_eq x sr hsr]; simp
  · rw [survey_compute_fft_eq x sr hsr]
    exact pairwise_lt_map_mul_div _ _ _ hsr hn
  · rw [survey_compute_fft_eq x sr hsr]

theorem c1_spectrum_amended_witness :
    (compute_fft_freqs ([(1:ℝ)]).length 8).length = ([(1:ℝ)]).length / 2 ∧
    (compute_fft_freqs ([(1:ℝ)]).length 8).Pairwise (· < ·) ∧
    compute_fft_amps [(1:ℝ)] = (List.range (([(1:ℝ)]).length / 2)).map
      (fun k => Complex.abs (dft [(1:ℝ)] k) * 2 / ([(1:ℝ)]).length) ∧
    (survey_compute_fft [(1:ℝ)] 8).1.length = (([(1:ℝ)]).length + 1) / 2 ∧
    (survey_compute_fft [(1:ℝ)] 8).1.Pairwise (· < ·) ∧
    (survey_compute_fft [(1:ℝ)] 8).2 = (List.range ((([(1:ℝ)]).length + 1) / 2)).map
      (fun k => Complex.abs (dft [(1:ℝ)] k)) :=
  c1_spectrum_amended [1] 8 (by simp) (by norm_num)

/-! ## Noise-band detection (src/analysis/frequency_analysis.py,
`identify_noise_bands`)

The function computes both spectra with the `frequency_analysis`
`compute_fft`, converts amplitudes to dB via `20*log10(amp + 1e-10)`,
subtracts the dB arrays with NumPy semantics (shapes `(m,)` and `(k,)`
subtract elementwise when `m = k`, broadcast when one of them is `1` —
including against `(0,)` — and raise a `ValueError` otherwise), then sweeps
`zip(clean_freqs, diff_db)` left to right with an in-band flag, opening a
band at the first qualifying bin (`diff > threshold`) and closing it at the
first disqualifying bin; a band still open after the loop is closed at
`clean_freqs[-1]`.  `zip` truncates to the shorter list, as in Python.

Before any of that runs, three raise paths fire in source order:
`compute_fft(clean_audio)` calls `np.fft.fft` which raises
`ValueError("Invalid number of FFT data points (0) specified")` on an empty
signal, then `np.fft.fftfreq(n, 1/sample_rate)` raises `ZeroDivisionError`
("division by zero") when the sample rate is zero, then
`compute_fft(noisy_audio)` raises the same FFT error for an empty noisy
signal.  These are modelled as the leading guards of
`identify_noise_bands`. -/

def npBroadcastSub (a b : List ℝ) : Except String (List ℝ) :=
  if a.length = b.length then .ok (a.zipWith (fun u v => u - v) b)
  else if b.length = 1 then .ok (a.map (fun u => u - b.getD 0 0))
  else if a.length = 1 then .ok (b.map (fun v => a.getD 0 0 - v))
  else .error "operands could not be broadcast together"

noncomputable def toDb (amps : List ℝ) : List ℝ :=
  amps.map (fun a => 20 * Real.logb 10 (a + 1e-10))

/-- The left-to-right band sweep.  Each list element is a frequency bin
paired with the Boolean `diff_db > threshold_db`. -/
def scanBands : List (ℚ × Bool) → Bool → ℚ → ℚ → List (ℚ × ℚ)
  | [], inBand, bandStart, lastFreq => if inBand then [(bandStart, lastFreq)] else []
  | (f, q) :: rest, inBand, bandStart, lastFreq =>
      match q, inBand with
      | true, false => scanBands rest true f lastFreq
      | false, true => (bandStart, f) :: scanBands rest false bandStart lastFreq
      | _, _ => scanBands rest inBand bandStart lastFreq

noncomputable def identify_noise_bands (clean_audio noisy_audio : List ℝ)
    (sr : ℚ) (threshold_db : ℝ) : Except String (List (ℚ × ℚ)) :=
  if clean_audio.length = 0 then
    .error "Invalid number of FFT data points (0) specified"
  else if sr = 0 then
    .error "division by zero"
  else if noisy_audio.length = 0 then
    .error "Invalid number of FFT data points (0) specified"
  else
    match npBroadcastSub (toDb (compute_fft_amps noisy_audio))
        (toDb (compute_fft_amps clean_audio)) with
    | .error e => .error e
    | .ok diff_db =>
        .ok (scanBands ((compute_fft_freqs clean_audio.length sr).zip
            (diff_db.map (fun d => if threshold_db < d then true else false)))
          false 0 ((compute_fft_freqs clean_audio.length sr).getLastD 0))

lemma scanBands_inv (l : List (ℚ × Bool)) :
    ∀ (inBand : Bool) (bandStart lastFreq : ℚ),
    (l.map Prod.fst).Pairwise (· < ·) →
    (∀ p ∈ l, p.1 ≤ lastFreq) →
    (inBand = true → (∀ p ∈ l, bandStart < p.1) ∧ bandStart ≤ lastFreq) →
    (∀ b ∈ scanBands l inBand bandStart lastFreq, b.1 ≤ b.2 ∧ b.2 ≤ lastFreq) ∧
    (scanBands l inBand bandStart lastFreq).Pairwise (fun b c => b.2 < c.1) ∧
    (inBand = true → ∀ b ∈ scanBands l inBand bandStart lastFreq, bandStart ≤ b.1) ∧
    (inBand = false → ∀ lb : ℚ, (∀ p ∈ l, lb < p.1) →
      ∀ b ∈ scanBands l inBand bandStart lastFreq, lb < b.1) := by
  induction l with
  | nil =>
      intro inBand bandStart lastFreq _ _ hstart
      cases inBand with
      | false => simp [scanBands]
      | true =>
          refine ⟨?_, ?_, ?_, ?_⟩
          · intro b hb
            rw [scanBands, if_pos rfl, List.mem_singleton] at hb
            subst hb
            exact ⟨(hstart rfl).2, le_refl _⟩
          · rw [scanBands, if_pos rfl]
            simp
          · intro _ b hb
            rw [scanBands, if_pos rfl, List.mem_singleton] at hb
            subst hb
            exact le_refl _
          · intro h
            cases h
  | cons hd tl ih =>
      obtain ⟨f, q⟩ := hd
      intro inBand bandStart lastFreq hsort hlast hstart
      rw [List.map_cons, List.pairwise_cons] at hsort
      have hf : ∀ p ∈ tl, f < p.1 := fun p hp => hsort.1 p.1 (List.mem_map_of_mem _ hp)
      have hsort' := hsort.2
      have hlast' : ∀ p ∈ tl, p.1 ≤ lastFreq :=
        fun p hp => hlast p (List.mem_cons_of_mem _ hp)
      have hflast : f ≤ lastFreq := hlast (f, q) (List.mem_cons_self _ _)
      cases q with
      | false =>
          cases inBand with
          | false =>
              have hmain := ih false bandStart lastFreq hsort' hlast'
                (fun h => by cases h)
              rw [show scanBands ((f, false) :: tl) false bandStart lastFreq =
                scanBands tl false bandStart lastFreq from rfl]
              refine ⟨hmain.1, hmain.2.1, ?_, ?_⟩
              · intro h
                cases h
              · intro _ lb hlb
                exact hmain.2.2.2 rfl lb (fun p hp => hlb p (List.mem_cons_of_mem _ hp))
          | true =>
              have hmain := ih false bandStart lastFreq hsort' hlast'
                (fun h => by cases h)
              have hopen := hstart rfl
              have hsf : bandStart < f := hopen.1 (f, false) (List.mem_cons_self _ _)
              rw [show scanBands ((f, false) :: tl) true bandStart lastFreq =
                (bandStart, f) :: scanBands tl false bandStart lastFreq from rfl]
              refine ⟨?_, ?_, ?_, ?_⟩
              · intro b hb
                rcases List.mem_cons.mp hb with rfl | hb'
                · exact ⟨le_of_lt hsf, hflast⟩
                · exact hmain.1 b hb'
              · rw [List.pairwise_cons]
                exact ⟨fun c hc => hmain.2.2.2 rfl f hf c hc, hmain.2.1⟩
              · intro _ b hb
                rcases List.mem_cons.mp hb with rfl | hb'
                · exact le_refl _
                · exact le_of_lt (hmain.2.2.2 rfl bandStart
                    (fun p hp => hopen.1 p (List.mem_cons_of_mem _ hp)) b hb')
              · intro h
                cases h
      | true =>
          cases inBand with
          | false =>
              have hmain := ih true f lastFreq hsort' hlast'
                (fun _ => ⟨hf, hflast⟩)
              rw [show scanBands ((f, true) :: tl) false bandStart lastFreq =
                scanBands tl true f lastFreq from rfl]
              refine ⟨hmain.1, hmain.2.1, ?_, ?_⟩
              · intro h
                cases h
              · intro _ lb hlb b hb
                have hlbf : lb < f := hlb (f, true) (List.mem_cons_self _ _)
                exact lt_of_lt_of_le hlbf (hmain.2.2.1 rfl b hb)
          | true =>
              have hopen := hstart rfl
              have hmain := ih true bandStart lastFreq hsort' hlast'
                (fun _ => ⟨fun p hp => hopen.1 p (List.mem_cons_of_mem _ hp), hopen.2⟩)
              rw [show scanBands ((f, true) :: tl) true bandStart lastFreq =
                scanBands tl true bandStart lastFreq from rfl]
              refine ⟨hmain.1, hmain.2.1, ?_, ?_⟩
              · intro _
                exact hmain.2.2.1 rfl
              · intro h
                cases h

lemma zip_map_fst_sublist {α β : Type} (l1 : List α) (l2 : List β) :
    ((l1.zip l2).map Prod.fst).Sublist l1 := by
  induction l1 generalizing l2 with
  | nil => simp
  | cons a t ih =>
      cases l2 with
      | nil => simp
      | cons b s =>
          rw [List.zip_cons_cons, List.map_cons]
          exact (ih s).cons₂ a

lemma compute_fft_freqs_pairwise (n : ℕ) (sr : ℚ) (hsr : 0 < sr) :
    (compute_fft_freqs n sr).Pairwise (· < ·) := by
  cases n with
  | zero => simp [compute_fft_freqs, fftfreq]
  | succ m =>
      rw [compute_fft_freqs_eq]
      exact pairwise_lt_map_mul_div _ _ _ hsr (Nat.succ_pos m)

lemma getLastD_map_range {α : Type} (g : ℕ → α) (m : ℕ) (d : α) (hm : 0 < m) :
    ((List.range m).map g).getLastD d = g (m - 1) := by
  rw [show m = (m - 1) + 1 by omega, List.range_succ, List.map_append]
  simp

lemma compute_fft_freqs_le_getLastD (n : ℕ) (sr : ℚ) (hsr : 0 ≤ sr) :
    ∀ f ∈ compute_fft_freqs n sr, f ≤ (compute_fft_freqs n sr).getLastD 0 := by
  rw [compute_fft_freqs_eq]
  intro f hf
  obtain ⟨k, hk, rfl⟩ := List.mem_map.mp hf
  have hk' : k < n / 2 := List.mem_range.mp hk
  rw [getLastD_map_range _ _ _ (by omega)]
  have hkc : (k : ℚ) ≤ ((n / 2 - 1 : ℕ) : ℚ) := by
    exact_mod_cast (by omega : k ≤ n / 2 - 1)
  have hnn : (0 : ℚ) ≤ (n : ℚ) := by positivity
  gcongr

lemma compute_fft_freqs_getLastD_le (n : ℕ) (sr : ℚ) (hsr : 0 ≤ sr) :
    (compute_fft_freqs n sr).getLastD 0 ≤ sr / 2 := by
  rw [compute_fft_freqs_eq]
  by_cases hm : 0 < n / 2
  · rw [getLastD_map_range _ _ _ hm]
    have hn : 0 < n := by omega
    have hnq : (0 : ℚ) < n := by exact_mod_cast hn
    rw [div_le_div_iff₀ hnq (by norm_num)]
    have hcast : ((n / 2 - 1 : ℕ) : ℚ) * 2 ≤ (n : ℚ) - 2 := by
      have : (n / 2 - 1) * 2 ≤ n - 2 := by omega
      calc ((n / 2 - 1 : ℕ) : ℚ) * 2 = (((n / 2 - 1) * 2 : ℕ) : ℚ) := by push_cast; ring
      _ ≤ ((n - 2 : ℕ) : ℚ) := by exact_mod_cast this
      _ ≤ (n : ℚ) - 2 := by
          have h2 : 2 ≤ n := by omega
          rw [Nat.cast_sub h2]
          norm_num
    nlinarith
  · have : n / 2 = 0 := by omega
    rw [this]
    simp [div_nonneg hsr]

lemma compute_fft_amps_length (x : List ℝ) :
    (compute_fft_amps x).length = x.length / 2 := by
  rw [compute_fft_amps_eq]
  simp

lemma toDb_length (l : List ℝ) : (toDb l).length = l.length := by
  simp [toDb]

lemma npBroadcastSub_error (a b : List ℝ) (e : String)
    (h : npBroadcastSub a b = .error e) :
    e = "operands could not be broadcast together" := by
  rw [npBroadcastSub] at h
  split_ifs at h
  simp_all

/-- C2 amended: every band list produced by `identify_noise_bands` is
pairwise non-overlapping and strictly ascending, and every band `[low, high]`
satisfies `low ≤ high ≤ Nyquist` — with `low = high` actually possible (a
band that opens at the very last frequency bin closes at that same bin), so
the claimed strict `low < high` must be weakened to `low ≤ high`. -/
theorem c2_bands_amended (clean_audio noisy_audio : List ℝ) (sr : ℚ)
    (threshold_db : ℝ) (hsr : 0 < sr) :
    ∀ bs, identify_noise_bands clean_audio noisy_audio sr threshold_db = .ok bs →
      bs.Pairwise (fun b c : ℚ × ℚ => b.2 < c.1) ∧
      ∀ b ∈ bs, b.1 ≤ b.2 ∧ b.2 ≤ sr / 2 := by
  intro bs hbs
  rw [identify_noise_bands] at hbs
  by_cases hg1 : clean_audio.length = 0
  · rw [if_pos hg1] at hbs; cases hbs
  rw [if_neg hg1] at hbs
  by_cases hg2 : sr = 0
  · rw [if_pos hg2] at hbs; cases hbs
  rw [if_neg hg2] at hbs
  by_cases hg3 : noisy_audio.length = 0
  · rw [if_pos hg3] at hbs; cases hbs
  rw [if_neg hg3] at hbs
  cases hsub : npBroadcastSub (toDb (compute_fft_amps noisy_audio))
      (toDb (compute_fft_amps clean_audio)) with
  | error e => rw [hsub] at hbs; cases hbs
  | ok diff_db =>
      rw [hsub] at hbs
      rw [Except.ok.injEq] at hbs
      subst hbs
      set freqs := compute_fft_freqs clean_audio.length sr with hfreqs
      set l := freqs.zip (diff_db.map
        (fun d => if threshold_db < d then true else false)) with hl
      have hsort : (l.map Prod.fst).Pairwise (· < ·) :=
        (compute_fft_freqs_pairwise clean_audio.length sr hsr).sublist
          (zip_map_fst_sublist _ _)
      have hlast : ∀ p ∈ l, p.1 ≤ freqs.getLastD 0 := by
        intro p hp
        obtain ⟨u, v⟩ := p
        exact compute_fft_freqs_le_getLastD _ _ hsr.le u (List.of_mem_zip hp).1
      have hmain := scanBands_inv l false 0 (freqs.getLastD 0) hsort hlast
        (fun h => by cases h)
      refine ⟨hmain.2.1, fun b hb => ?_⟩
      obtain ⟨h1, h2⟩ := hmain.1 b hb
      exact ⟨h1, le_trans h2 (compute_fft_freqs_getLastD_le _ _ hsr.le)⟩

theorem c2_bands_amended_witness :
    ([] : List (ℚ × ℚ)).Pairwise (fun b c : ℚ × ℚ => b.2 < c.1) ∧
    ∀ b ∈ ([] : List (ℚ × ℚ)), b.1 ≤ b.2 ∧ b.2 ≤ (2 : ℚ) / 2 :=
  c2_bands_amended [1] [1] 2 0 (by norm_num) [] (by
    rw [identify_noise_bands, if_neg (by decide), if_neg (by norm_num),
      if_neg (by decide)]
    rfl)

lemma compute_fft_freqs_two (sr : ℚ) : compute_fft_freqs 2 sr = [0] := by
  rw [compute_fft_freqs_eq]
  rw [show (2:ℕ)/2 = 1 from rfl, show List.range 1 = [0] from rfl]
  simp

lemma dft_at_zero (x : List ℝ) :
    dft x 0 = ∑ j ∈ Finset.range x.length, (x.getD j 0 : ℂ) := by
  unfold dft
  refine Finset.sum_congr rfl fun j _ => ?_
  simp

lemma dft_one_one : dft [(1:ℝ), 1] 0 = 2 := by
  rw [dft_at_zero]
  rw [show ([(1:ℝ), 1]).length = 2 from rfl]
  rw [Finset.sum_range_succ, Finset.sum_range_succ, Finset.sum_range_zero]
  norm_num

lemma dft_eleven_eleven : dft [(11:ℝ), 11] 0 = 22 := by
  rw [dft_at_zero]
  rw [show ([(11:ℝ), 11]).length = 2 from rfl]
  rw [Finset.sum_range_succ, Finset.sum_range_succ, Finset.sum_range_zero]
  norm_num

lemma dft_four_ones : dft [(1:ℝ), 1, 1, 1] 0 = 4 := by
  rw [dft_at_zero]
  rw [show ([(1:ℝ), 1, 1, 1]).length = 4 from rfl]
  rw [Finset.sum_range_succ, Finset.sum_range_succ, Finset.sum_range_succ,
    Finset.sum_range_succ, Finset.sum_range_zero]
  norm_num

lemma compute_fft_amps_one_one : compute_fft_amps [(1:ℝ), 1] = [2] := by
  rw [compute_fft_amps_eq]
  rw [show ([(1:ℝ), 1]).length = 2 from rfl]
  rw [show (2 : ℕ) / 2 = 1 from rfl, show List.range 1 = [0] from rfl,
    List.map_cons, List.map_nil, dft_one_one]
  rw [show Complex.abs 2 = 2 from Complex.abs_two]
  norm_num

lemma compute_fft_amps_eleven_eleven : compute_fft_amps [(11:ℝ), 11] = [22] := by
  rw [compute_fft_amps_eq]
  rw [show ([(11:ℝ), 11]).length = 2 from rfl]
  rw [show (2 : ℕ) / 2 = 1 from rfl, show List.range 1 = [0] from rfl,
    List.map_cons, List.map_nil, dft_eleven_eleven]
  rw [show Complex.abs 22 = 22 from Complex.abs_ofNat 22]
  norm_num

lemma compute_fft_amps_four_ones : compute_fft_amps [(1:ℝ), 1, 1, 1] =
    [2, Complex.abs (dft [(1:ℝ), 1, 1, 1] 1) * 2 / 4] := by
  rw [compute_fft_amps_eq]
  rw [show ([(1:ℝ), 1, 1, 1]).length = 4 from rfl]
  rw [show (4 : ℕ) / 2 = 2 from rfl,
    show List.range 2 = [0, 1] from rfl, List.map_cons, List.map_cons, List.map_nil,
    dft_four_ones]
  rw [show Complex.abs 4 = 4 from Complex.abs_ofNat 4]
  norm_num

/-- C2 counterexample: on `clean = [1,1]`, `noisy = [11,11]` at sample rate 2
(a single frequency bin at 0 Hz whose dB difference exceeds the default 20 dB
threshold), `identify_noise_bands` returns the degenerate band `(0, 0)`:
a band that opens at the last bin is closed at that same bin's frequency, so
`low_hz < high_hz` fails. -/
theorem c2_bands_counterexample :
    identify_noise_bands [(1:ℝ), 1] [(11:ℝ), 11] 2 20 = .ok [(0, 0)] ∧
    ¬ ((0 : ℚ) < 0) := by
  refine ⟨?_, by decide⟩
  rw [identify_noise_bands, if_neg (by decide), if_neg (by norm_num : ¬ (2:ℚ) = 0),
    if_neg (by decide), compute_fft_amps_one_one, compute_fft_amps_eleven_eleven]
  have hdb : npBroadcastSub (toDb [(22:ℝ)]) (toDb [(2:ℝ)]) =
      .ok [20 * Real.logb 10 (22 + 1e-10) - 20 * Real.logb 10 (2 + 1e-10)] := by
    rw [toDb, toDb, List.map_cons, List.map_nil, List.map_cons, List.map_nil,
      npBroadcastSub, if_pos (by simp)]
    rfl
  rw [hdb]
  dsimp only
  have hd : (20 : ℝ) <
      20 * Real.logb 10 (22 + 1e-10) - 20 * Real.logb 10 (2 + 1e-10) := by
    have h1 : Real.logb 10 ((2 + 1e-10) * 10) = Real.logb 10 (2 + 1e-10) + 1 := by
      rw [Real.logb_mul (by norm_num) (by norm_num),
        Real.logb_self_eq_one (by norm_num)]
    have h2 : Real.logb 10 ((2 + 1e-10) * 10) < Real.logb 10 (22 + 1e-10) :=
      Real.logb_lt_logb (by norm_num) (by norm_num) (by norm_num)
    rw [h1] at h2
    linarith
  rw [List.map_cons, List.map_nil, if_pos hd]
  rw [show compute_fft_freqs ([(1:ℝ), 1]).length 2 = [0] from by
    rw [show ([(1:ℝ), 1]).length = 2 from rfl]
    exact compute_fft_freqs_two 2]
  rfl

/-- C3 amended: for non-empty clean and noisy signals and a positive sample
rate (the domain in which the FFT and `1/sample_rate` raise nothing),
`identify_noise_bands` performs no spectra-compatibility check and never
raises an `IncompatibleSpectraError` (no such error exists in the
repository): with identical signal lengths it always proceeds normally, and
the only failure it can produce is NumPy's broadcasting `ValueError` when
the two dB arrays have different lengths neither of which is 1.  (Outside
that domain the failures are `np.fft.fft`'s empty-input `ValueError` and the
`ZeroDivisionError` from `1/sample_rate` — modelled by the guards of
`identify_noise_bands` — still never an `IncompatibleSpectraError`.) -/
theorem c3_compat_amended (clean_audio noisy_audio : List ℝ) (sr : ℚ) (thr : ℝ)
    (hc : clean_audio ≠ []) (hn : noisy_audio ≠ []) (hsr : 0 < sr) :
    (clean_audio.length = noisy_audio.length →
      ∃ bs, identify_noise_bands clean_audio noisy_audio sr thr = .ok bs) ∧
    (∀ e, identify_noise_bands clean_audio noisy_audio sr thr = .error e →
      e = "operands could not be broadcast together") := by
  have hc0 : ¬ clean_audio.length = 0 := (List.length_pos.mpr hc).ne'
  have hn0 : ¬ noisy_audio.length = 0 := (List.length_pos.mpr hn).ne'
  have hs0 : ¬ sr = 0 := hsr.ne'
  constructor
  · intro hlen
    have hlens : (toDb (compute_fft_amps noisy_audio)).length =
        (toDb (compute_fft_amps clean_audio)).length := by
      rw [toDb_length, toDb_length, compute_fft_amps_length,
        compute_fft_amps_length, hlen]
    rw [identify_noise_bands, if_neg hc0, if_neg hs0, if_neg hn0,
      npBroadcastSub, if_pos hlens]
    exact ⟨_, rfl⟩
  · intro e he
    rw [identify_noise_bands, if_neg hc0, if_neg hs0, if_neg hn0] at he
    cases hsub : npBroadcastSub (toDb (compute_fft_amps noisy_audio))
        (toDb (compute_fft_amps clean_audio)) with
    | ok d => rw [hsub] at he; cases he
    | error e' =>
        rw [hsub] at he
        rw [Except.error.injEq] at he
        subst he
        exact npBroadcastSub_error _ _ _ hsub

theorem c3_compat_amended_witness :
    ∃ bs, identify_noise_bands [(1:ℝ), 1] [(2:ℝ), 0] 4 20 = .ok bs :=
  (c3_compat_amended [1, 1] [2, 0] 4 20 (by simp) (by simp) (by norm_num)).1 rfl

/-- C3 counterexample: `clean = [1,1]` (one frequency bin) and
`noisy = [1,1,1,1]` (two bins) have different frequency-bin sequences, yet
`identify_noise_bands` does not fail at all — the one-element clean dB array
is NumPy-broadcast against the noisy one and the call returns a normal
(empty) band list instead of raising `IncompatibleSpectraError`. -/
theorem c3_compat_counterexample :
    identify_noise_bands [(1:ℝ), 1] [(1:ℝ), 1, 1, 1] 8 20 = .ok [] := by
  rw [identify_noise_bands, if_neg (by decide), if_neg (by norm_num : ¬ (8:ℚ) = 0),
    if_neg (by decide), compute_fft_amps_four_ones, compute_fft_amps_one_one]
  have hdb : npBroadcastSub
      (toDb [2, Complex.abs (dft [(1:ℝ), 1, 1, 1] 1) * 2 / 4]) (toDb [(2:ℝ)]) =
      .ok [20 * Real.logb 10 (2 + 1e-10) - 20 * Real.logb 10 (2 + 1e-10),
        20 * Real.logb 10 (Complex.abs (dft [(1:ℝ), 1, 1, 1] 1) * 2 / 4 + 1e-10) -
          20 * Real.logb 10 (2 + 1e-10)] := by
    rw [toDb, toDb, List.map_cons, List.map_cons, List.map_nil, List.map_cons,
      List.map_nil, npBroadcastSub]
    rw [if_neg (by simp), if_pos (by simp)]
    rfl
  rw [hdb]
  dsimp only
  rw [List.map_cons, sub_self, if_neg (by norm_num : ¬ (20:ℝ) < 0)]
  rw [show compute_fft_freqs ([(1:ℝ), 1]).length 8 = [0] from by
    rw [show ([(1:ℝ), 1]).length = 2 from rfl]
    exact compute_fft_freqs_two 8]
  rfl

/-! ## Causal FIR application (src/filters/fir_filter.py `FIRFilter.apply`,
src/filters/band_stop_filter.py `BandStopFilter.apply`, FIR branch)

`signal.lfilter(b, 1.0, x)` with an FIR numerator is the causal convolution
`y[n] = Σ_k b[k]·x[n-k]`, truncated to `len(x)` outputs.  `np.roll(v, s)`
rotates the array: `result[i] = v[(i - s) mod len(v)]`.  The source
compensates group delay with `np.roll(filtered, -self.order // 2)`; Python
parses that shift as `(-order) // 2` — floor division of the NEGATED order,
i.e. `Int.fdiv (-order) 2`, which is `-⌈order/2⌉`, not `-(order // 2)`. -/

def lfilter_fir (b x : List ℝ) : List ℝ :=
  (List.range x.length).map (fun n : ℕ =>
    ∑ k ∈ Finset.range b.length, if k ≤ n then b.getD k 0 * x.getD (n - k) 0 else 0)

def npRoll (v : List ℝ) (s : ℤ) : List ℝ :=
  (List.range v.length).map (fun i : ℕ =>
    v.getD ((((i : ℕ) : ℤ) - s).emod v.length).toNat 0)

def fir_apply (b : List ℝ) (order : ℕ) (x : List ℝ) : List ℝ :=
  npRoll (lfilter_fir b x) (Int.fdiv (-(order : ℤ)) 2)

/-- C5 counterexample: with a single-tap filter (`order = 1`, identity
coefficients, a legitimate order-1 windowed-sinc lowpass), the causal
application of `[1, 0]` yields `[0, 1]` — a circular LEFT shift by
`⌈1/2⌉ = 1` — whereas the claimed shift by `1 // 2 = 0` samples would leave
`[1, 0]` unchanged. -/
theorem c5_fir_apply_counterexample :
    fir_apply [(1:ℝ)] 1 [1, 0] = [0, 1] ∧
    npRoll (lfilter_fir [(1:ℝ)] [1, 0]) (-(((1:ℕ) / 2 : ℕ) : ℤ)) = [1, 0] ∧
    ([(0:ℝ), 1] ≠ [(1:ℝ), 0]) := by
  have hlf : lfilter_fir [(1:ℝ)] [1, 0] = [1, 0] := by
    rw [lfilter_fir, show ([(1:ℝ), 0]).length = 2 from rfl,
      show List.range 2 = [0, 1] from rfl]
    simp [Finset.sum_range_succ]
  refine ⟨?_, ?_, by simp⟩
  · rw [fir_apply, hlf, show Int.fdiv (-((1:ℕ):ℤ)) 2 = -1 from by decide, npRoll,
      show ([(1:ℝ), 0]).length = 2 from rfl, show List.range 2 = [0, 1] from rfl]
    simp only [List.map_cons, List.map_nil]
    rw [show ((((0:ℕ):ℤ) - (-1)).emod ((2:ℕ):ℤ)).toNat = 1 from by decide,
      show ((((1:ℕ):ℤ) - (-1)).emod ((2:ℕ):ℤ)).toNat = 0 from by decide]
    rfl
  · rw [hlf, show (-(((1:ℕ) / 2 : ℕ) : ℤ)) = 0 from by decide, npRoll,
      show ([(1:ℝ), 0]).length = 2 from rfl, show List.range 2 = [0, 1] from rfl]
    simp only [List.map_cons, List.map_nil]
    rw [show ((((0:ℕ):ℤ) - 0).emod ((2:ℕ):ℤ)).toNat = 0 from by decide,
      show ((((1:ℕ):ℤ) - 0).emod ((2:ℕ):ℤ)).toNat = 1 from by decide]
    rfl

/-- C5 amended: for every coefficient list, order and signal, the causal FIR
application equals the forward-filtered signal circularly shifted LEFT by
`⌈order/2⌉ = (order+1) // 2` samples (for even orders this coincides with the
claimed `order // 2`; for odd orders it is one more), and the output length
always equals the input length.  The `BandStopFilter` FIR branch applies the
very same computation. -/
theorem c5_fir_apply_amended (b : List ℝ) (order : ℕ) (x : List ℝ) :
    fir_apply b order x =
      npRoll (lfilter_fir b x) (-(((order + 1) / 2 : ℕ) : ℤ)) ∧
    (fir_apply b order x).length = x.length := by
  have hfdiv : Int.fdiv (-(order : ℤ)) 2 = -(((order + 1) / 2 : ℕ) : ℤ) := by
    rw [Int.fdiv_eq_ediv _ (by norm_num)]
    omega
  constructor
  · rw [fir_apply, hfdiv]
  · rw [fir_apply, npRoll, lfilter_fir]
    simp

/-! ## Band-stop filter design and application
(src/filters/band_stop_filter.py, `BandStopFilter._design_filter` and
`BandStopFilter.apply`)

`_design_filter` normalizes each stop band to
`(max(0, low/nyquist), min(1, high/nyquist))`; in the IIR branch it designs
one Butterworth order-4 bandstop SOS cascade per band whose normalized width
exceeds `0.01`, and then, when more than one cascade was designed, runs
`coefficients = sos[0]; for s in sos[1:]: coefficients = signal.sosfilt_zi(s)`
— so the attribute ends up holding `sosfilt_zi(last cascade)`, an
initial-conditions array of shape `(n_sections, 2)`, not a concatenation of
the section lists.  `scipy.signal.butter` and `scipy.signal.sosfilt_zi` are
external library calls, modelled as opaque function parameters; the shape
distinction between an SOS array (rows of 6) and a `zi` array (rows of 2) is
captured by the constructors of `BSCoefficients`, and `scipy.signal.sosfilt`
rejects anything that is not an `(n_sections, 6)` SOS array with a
`ValueError`, modelled by `scipy_sosfilt` returning that error. -/

/-- One second-order section: the six coefficients `[b0, b1, b2, a0, a1, a2]`
of a biquad row of a scipy SOS array. -/
structure Biquad where
  b0 : ℝ
  b1 : ℝ
  b2 : ℝ
  a0 : ℝ
  a1 : ℝ
  a2 : ℝ

/-- The dynamically-typed `self.coefficients` attribute of `BandStopFilter`:
a 1-D FIR tap array, an `(n_sections, 6)` SOS array, or an
`(n_sections, 2)` initial-conditions array from `sosfilt_zi`. -/
inductive BSCoefficients where
  | fir (b : List ℝ)
  | sos (sections : List Biquad)
  | zi (state : List (ℝ × ℝ))

/-- The normalized stop bands.  The source flattens them into the list
`normalized_bands = [low1', high1', low2', high2', ...]` and the IIR branch
re-reads that list in consecutive index pairs `(i, i+1)`, which is exactly
this pair list. -/
def normalized_pairs (sample_rate : ℚ) (stop_bands : List (ℚ × ℚ)) :
    List (ℚ × ℚ) :=
  stop_bands.map (fun p =>
    (max 0 (p.1 / (sample_rate / 2)), min 1 (p.2 / (sample_rate / 2))))

/-- The IIR branch of `_design_filter`, with the two scipy services as
parameters.  The final `match` mirrors the source exactly: one cascade is
stored as-is; with two or more, the loop overwrites `coefficients` with
`sosfilt_zi` of each remaining cascade in turn, leaving
`sosfilt_zi (last cascade)`. -/
def design_filter_iir (butter4_bandstop : ℚ → ℚ → List Biquad)
    (sosfilt_zi : List Biquad → List (ℝ × ℝ))
    (sample_rate : ℚ) (stop_bands : List (ℚ × ℚ)) : Except String BSCoefficients :=
  match ((normalized_pairs sample_rate stop_bands).filter
      (fun p => decide ((1:ℚ)/100 < p.2 - p.1))).map
      (fun p => butter4_bandstop p.1 p.2) with
  | [] => .error "Gecerli durdurma bandi tanimlanmadi"
  | [s] => .ok (.sos s)
  | _ :: s1 :: rest =>
      .ok (.zi (sosfilt_zi ((s1 :: rest).getLast (List.cons_ne_nil s1 rest))))

/-- One biquad in direct-form II transposed, as scipy's `sosfilt` computes it
(sections are assumed normalized, `a0 = 1`, as `butter` produces). -/
def biquad_df2t (q : Biquad) : List ℝ → ℝ → ℝ → List ℝ
  | [], _, _ => []
  | xn :: rest, z1, z2 =>
      (q.b0 * xn + z1) ::
        biquad_df2t q rest (q.b1 * xn - q.a1 * (q.b0 * xn + z1) + z2)
          (q.b2 * xn - q.a2 * (q.b0 * xn + z1))

/-- `scipy.signal.sosfilt` on a well-shaped SOS array: the cascade of its
biquads.  On anything that is not an `(n_sections, 6)` array it raises
`ValueError("sos array must be shape (n_sections, 6)")`. -/
def scipy_sosfilt (coefficients : BSCoefficients) (x : List ℝ) :
    Except String (List ℝ) :=
  match coefficients with
  | .sos sections => .ok (sections.foldl (fun acc q => biquad_df2t q acc 0 0) x)
  | _ => .error "sos array must be shape (n_sections, 6)"

/-- `scipy.signal.lfilter(b, 1.0, x)` demands a 1-D coefficient array. -/
def scipy_lfilter_b (coefficients : BSCoefficients) (x : List ℝ) :
    Except String (List ℝ) :=
  match coefficients with
  | .fir b => .ok (lfilter_fir b x)
  | _ => .error "object of too small depth for desired array"

/-- `BandStopFilter.apply`: `lfilter` then a left roll by `(-order) // 2` on
the FIR path, `sosfilt` on the IIR path. -/
def band_stop_apply (filter_type : String) (coefficients : BSCoefficients)
    (order : ℕ) (audio_data : List ℝ) : Except String (List ℝ) :=
  if filter_type = "fir" then
    (scipy_lfilter_b coefficients audio_data).map
      (fun filtered => npRoll filtered (Int.fdiv (-(order : ℤ)) 2))
  else
    scipy_sosfilt coefficients audio_data

/-- C4: with two stop bands — `[(1000, 2000), (3000, 4000)]` at 16 kHz, both
wide enough to pass the `0.01` width check — the IIR design does NOT
concatenate the two bandstop cascades: whatever `butter` and `sosfilt_zi`
return, the stored coefficients are `sosfilt_zi` of the LAST band's cascade
(an initial-conditions array, never equal to any SOS section list), and
applying the filter raises scipy's shape `ValueError` instead of filtering,
contradicting both the spec and the source's own "chain the bands" comment.
-/
theorem c4_iir_multiband_code_bug (butter4_bandstop : ℚ → ℚ → List Biquad)
    (sosfilt_zi : List Biquad → List (ℝ × ℝ)) (audio_data : List ℝ) :
    design_filter_iir butter4_bandstop sosfilt_zi 16000 [(1000, 2000), (3000, 4000)] =
      .ok (.zi (sosfilt_zi (butter4_bandstop (3/8) (1/2)))) ∧
    band_stop_apply "iir" (.zi (sosfilt_zi (butter4_bandstop (3/8) (1/2)))) 4
        audio_data = .error "sos array must be shape (n_sections, 6)" ∧
    (∀ sections : List Biquad,
      BSCoefficients.zi (sosfilt_zi (butter4_bandstop (3/8) (1/2))) ≠
        .sos sections) := by
  have hp : normalized_pairs 16000 [((1000:ℚ), 2000), (3000, 4000)] =
      [(1/8, 1/4), (3/8, 1/2)] := by
    rw [normalized_pairs, List.map_cons, List.map_cons, List.map_nil]
    norm_num
  refine ⟨?_, ?_, ?_⟩
  · rw [design_filter_iir, hp]
    rw [show ([((1:ℚ)/8, (1:ℚ)/4), (3/8, 1/2)]).filter
        (fun p => decide ((1:ℚ)/100 < p.2 - p.1)) = [(1/8, 1/4), (3/8, 1/2)] from by
      rw [List.filter_cons, List.filter_cons, List.filter_nil,
        if_pos (by norm_num), if_pos (by norm_num)]]
    rfl
  · rw [band_stop_apply, if_neg (by decide)]
    rfl
  · intro sections h
    cases h

/-! ## Summary parsing (src/utils/summary_from_txt.py, `parse_summary_txt`)

Each line of the summary file is stripped and matched with `re.match`
(anchored at the start only) against
`(.+?): MSE=([-\d.]+), SNR=([-\d.]+), Corr=([-\d.]+)`.
The lazy nonempty `(.+?)` name group means a line matches iff SOME split
puts at least one character before the `: MSE=` literal; each number group
is a nonempty run over the class of digits, dots and minus signs — the class
contains neither comma nor space, so the maximal run is the only candidate
before each following literal.  Matching lines append a result dict, all
other lines are silently skipped.  The model keeps the matched number groups
as strings (the source's subsequent `float(...)` conversion is not at issue
in the claims). -/

def isNumChar (c : Char) : Bool := c.isDigit || c == '.' || c == '-'

/-- Strip a literal off the front of the character list. -/
def dropLit : List Char → List Char → Option (List Char)
  | [], s => some s
  | _ :: _, [] => none
  | p :: ps, c :: cs => if p = c then dropLit ps cs else none

/-- Consume a nonempty maximal `[-\d.]+` run; return it and the rest. -/
def grabNum (s : List Char) : Option (List Char × List Char) :=
  match s.takeWhile isNumChar with
  | [] => none
  | run => some (run, s.drop run.length)

def matchAfterName (s : List Char) : Option (List Char × List Char × List Char) := do
  let s1 ← dropLit (": MSE=".data) s
  let (mse, s2) ← grabNum s1
  let s3 ← dropLit (", SNR=".data) s2
  let (snr, s4) ← grabNum s3
  let s5 ← dropLit (", Corr=".data) s4
  let (corr, _) ← grabNum s5
  some (mse, snr, corr)

/-- The lazy name group: try the shortest nonempty name first, extending one
character at a time until the rest of the pattern matches. -/
def matchLine : List Char → List Char → Option (String × String × String × String)
  | _, [] => none
  | nameAcc, c :: rest =>
      match matchAfterName rest with
      | some (mse, snr, corr) =>
          some (String.mk (nameAcc ++ [c]), String.mk mse, String.mk snr,
            String.mk corr)
      | none => matchLine (nameAcc ++ [c]) rest

/-- Python `str.strip()` over the character list. -/
def strTrim (s : String) : List Char :=
  ((s.data.dropWhile Char.isWhitespace).reverse.dropWhile Char.isWhitespace).reverse

def parse_line (line : String) : Option (String × String × String × String) :=
  matchLine [] (strTrim line)

def parse_summary_txt (lines : List String) :
    List (String × String × String × String) :=
  lines.filterMap parse_line

/-- C10: the summary parser produces an entry only for lines matching the
`<name>: MSE=<number>, SNR=<number>, Corr=<number>` pattern with each number
a run of digits, dots and minus signs; every non-matching line — a failure
row, or a row whose SNR field is the non-numeric `inf` — contributes nothing
to the parsed results (and hence nothing to the aggregate statistics
computed from them), while a well-formed numeric row is parsed into its
groups. -/
theorem c10_summary_parse (xs ys : List String) (line : String)
    (e : String × String × String × String) :
    (parse_line line = none →
      parse_summary_txt (xs ++ line :: ys) =
        parse_summary_txt xs ++ parse_summary_txt ys) ∧
    (e ∈ parse_summary_txt xs → ∃ l ∈ xs, parse_line l = some e) ∧
    parse_line "x.wav: MSE=0.1234, SNR=inf, Corr=0.987" = none ∧
    parse_line "x.wav islenirken hata olustu: division by zero" = none ∧
    parse_line "x.wav: MSE=0.1234, SNR=-12.57, Corr=0.987" =
      some ("x.wav", "0.1234", "-12.57", "0.987") := by
  refine ⟨?_, ?_, by decide, by decide, by decide⟩
  · intro hnone
    rw [parse_summary_txt, List.filterMap_append, List.filterMap_cons, hnone]
    rfl
  · intro he
    exact List.mem_filterMap.mp he

theorem c10_summary_parse_witness :
    parse_summary_txt (["a.wav: MSE=0.1, SNR=2.0, Corr=0.5"] ++
        "b.wav islenirken hata olustu: boom" :: []) =
      parse_summary_txt ["a.wav: MSE=0.1, SNR=2.0, Corr=0.5"] ++
        parse_summary_txt [] ∧
    ∃ l ∈ ["a.wav: MSE=0.1, SNR=2.0, Corr=0.5"],
      parse_line l = some ("a.wav", "0.1", "2.0", "0.5") :=
  ⟨(c10_summary_parse ["a.wav: MSE=0.1, SNR=2.0, Corr=0.5"] []
      "b.wav islenirken hata olustu: boom"
      ("a.wav", "0.1", "2.0", "0.5")).1 (by decide),
   (c10_summary_parse ["a.wav: MSE=0.1, SNR=2.0, Corr=0.5"] []
      "b.wav islenirken hata olustu: boom"
      ("a.wav", "0.1", "2.0", "0.5")).2.1 (by decide)⟩

end SoundFiltering
